import Mathlib

/-!
Verification development for the memoizing decorator in
lib/cached.ts of the internal metal package.

Two models are built from the source:

* a read-time model of the replacement getter that the decorator installs
  (the per-declaration WeakMap of cache handles, together with the external
  tracking engine operations createCache/getValue, which are modelled from
  the specification of the external collaborator);
* a declaration-time model of the decorator function itself (argument
  validation under the DEBUG flag and the in-place descriptor mutation),
  over a small embedding of JavaScript values.
-/

namespace Cached

/-- Object instances (the receivers of property reads) are identified by
natural numbers. -/
abbrev Inst := Nat

/-- Identifiers of reactive (tracked) cells that a computation may read. -/
abbrev CellId := Nat

/-- Values computed by getters. -/
abbrev Value := Int

/-- Modelled from the spec: the tracking engine global store of reactive
cells. Each cell has a value and the revision at which it was last written;
`current` is the global revision counter. -/
structure Store where
  val : CellId → Value
  rev : CellId → Nat
  current : Nat

/-- A store is wellformed when no cell revision exceeds the global counter. -/
def Store.wf (s : Store) : Prop := ∀ c, s.rev c ≤ s.current

/-- Modelled from the spec: writing a tracked cell bumps the global revision
counter and stamps the written cell with the new revision. -/
def writeCell (s : Store) (c : CellId) (v : Value) : Store where
  val := fun d => if d = c then v else s.val d
  rev := fun d => if d = c then s.current + 1 else s.rev d
  current := s.current + 1

/-- The original getter (the value of descriptor.get before wrapping):
given the store and the receiver it evaluates to a value, and the tracking
engine records the list of tracked cells read during the evaluation. -/
abbrev Comp := Store → Inst → Value × List CellId

/-- Modelled from the spec: a Cache Handle produced by createCache of the
external tracking engine (spec section 6, createHandle). It wraps the thunk
getter.bind(this) — represented here by the bound receiver `inst` — and,
once resolved at least once, holds the last value, the revision at which it
was computed, and the dependencies recorded during that computation. -/
structure Cache where
  inst : Inst
  last : Option (Value × Nat × List CellId)
deriving Repr, DecidableEq

/-- Modelled from the spec: createCache wraps the bound thunk without
evaluating it (spec section 6: does not evaluate it yet). -/
def createCache (i : Inst) : Cache := ⟨i, none⟩

/-- Largest revision among a list of recorded dependencies. -/
def maxRev (s : Store) (deps : List CellId) : Nat :=
  deps.foldr (fun c a => max (s.rev c) a) 0

/-- Modelled from the spec: getValue of the external tracking engine (spec
section 6, resolve): it returns the cached value if no recorded dependency
changed since the last invocation, otherwise it invokes the thunk (the
original getter bound to `c.inst`), records the newly observed dependencies
and caches the fresh value. The result also carries the updated handle and
how many times the underlying computation was invoked (0 or 1). -/
def getValue (f : Comp) (s : Store) (c : Cache) : Value × Cache × Nat :=
  match c.last with
  | some (v, snap, deps) =>
      if maxRev s deps ≤ snap then (v, c, 0)
      else
        let r := f s c.inst
        (r.1, ⟨c.inst, some (r.1, s.current, r.2)⟩, 1)
  | none =>
      let r := f s c.inst
      (r.1, ⟨c.inst, some (r.1, s.current, r.2)⟩, 1)

/-- The per-declaration WeakMap `caches`, keyed by the receiver
(cached.ts line 58). -/
abbrev Caches := Inst → Option Cache

/-- State of the map right after the declaration is processed: no instance
has a handle yet. -/
def emptyCaches : Caches := fun _ => none

/-- Pointwise update of the map at one receiver. -/
def updateCaches (σ : Caches) (i : Inst) (c : Cache) : Caches :=
  fun j => if j = i then some c else σ j

/-- The replacement getter installed by the decorator (cached.ts lines
61 to 67): if the receiver has no handle yet, create one wrapping the
original getter bound to the receiver and register it in the map; then
resolve the handle with getValue. The result carries the returned value,
the updated map, the number of invocations of the original getter during
this read, and the number of createCache calls during this read. -/
def read (f : Comp) (s : Store) (σ : Caches) (i : Inst) :
    Value × Caches × Nat × Nat :=
  match σ i with
  | some c =>
      let r := getValue f s c
      (r.1, updateCaches σ i r.2.1, r.2.2, 0)
  | none =>
      let r := getValue f s (createCache i)
      (r.1, updateCaches σ i r.2.1, r.2.2, 1)

/-- Repeated reads by one receiver with no intervening writes: the list of
returned values, the final map, and the total number of invocations of the
original getter. -/
def readN (f : Comp) (s : Store) (σ : Caches) (i : Inst) :
    Nat → List Value × Caches × Nat
  | 0 => ([], σ, 0)
  | n + 1 =>
      let r := read f s σ i
      let rest := readN f s r.2.1 i n
      (r.1 :: rest.1, rest.2.1, r.2.2.1 + rest.2.2)

/- Traces of events against one declaration, used to state the lifetime
invariants of the per-instance handles. -/

/-- Events visible to one declaration: a read of the memoized property by
some instance, or a write to some tracked cell. -/
inductive Op where
  | readOp (i : Inst)
  | writeOp (c : CellId) (v : Value)
deriving Repr, DecidableEq

/-- Joint state of the tracked store and of the per-declaration map. -/
structure Sys where
  store : Store
  caches : Caches

/-- Effect of one event on the joint state. -/
def Sys.step (f : Comp) (sys : Sys) : Op → Sys
  | .readOp i => { sys with caches := (read f sys.store sys.caches i).2.1 }
  | .writeOp c v => { sys with store := writeCell sys.store c v }

/-- Effect of a trace of events on the joint state. -/
def Sys.run (f : Comp) (sys : Sys) : List Op → Sys
  | [] => sys
  | op :: ops => (sys.step f op).run f ops

/-- Number of createCache invocations performed for instance i along a
trace (each read contributes the createCache count it reports). -/
def createCallsFor (f : Comp) (sys : Sys) (i : Inst) : List Op → Nat
  | [] => 0
  | op :: ops =>
      (match op with
        | .readOp j => if j = i then (read f sys.store sys.caches j).2.2.2 else 0
        | .writeOp _ _ => 0) + createCallsFor f (sys.step f op) i ops

/- Error-aware read model: the original getter may throw. -/

/-- A possibly failing original getter: evaluation either throws an
exception of type ε or returns the value together with the recorded
dependencies. -/
abbrev CompE (ε : Type) := Store → Inst → Except ε (Value × List CellId)

/-- Modelled from the spec: getValue over a possibly failing thunk. When
the thunk is invoked and throws, the exception propagates unmodified and
the handle content is left unchanged, since the spec states that a failure
in the computation is neither suppressed nor cached. -/
def getValueE {ε : Type} (f : CompE ε) (s : Store) (c : Cache) :
    Except ε Value × Cache × Nat :=
  match c.last with
  | some (v, snap, deps) =>
      if maxRev s deps ≤ snap then (.ok v, c, 0)
      else
        match f s c.inst with
        | .ok r => (.ok r.1, ⟨c.inst, some (r.1, s.current, r.2)⟩, 1)
        | .error e => (.error e, c, 1)
  | none =>
      match f s c.inst with
      | .ok r => (.ok r.1, ⟨c.inst, some (r.1, s.current, r.2)⟩, 1)
      | .error e => (.error e, c, 1)

/-- The replacement getter over a possibly failing original getter
(cached.ts lines 61 to 67): identical to read, with the resolution step
replaced by its error-aware form. -/
def readE {ε : Type} (f : CompE ε) (s : Store) (σ : Caches) (i : Inst) :
    Except ε Value × Caches × Nat × Nat :=
  match σ i with
  | some c =>
      let r := getValueE f s c
      (r.1, updateCaches σ i r.2.1, r.2.2, 0)
  | none =>
      let r := getValueE f s (createCache i)
      (r.1, updateCaches σ i r.2.1, r.2.2, 1)

/-- Content of the handle for instance i, used to state that a failing
invocation does not modify it. -/
def lastOf (σ : Caches) (i : Inst) : Option (Value × Nat × List CellId) :=
  match σ i with
  | some c => c.last
  | none => none

/- Declaration-time model: a small embedding of the JavaScript values that
the decorator manipulates, and the decorator function itself. -/

/-- Results of the typeof operator. -/
inductive JSType where
  | undefined
  | object
  | boolean
  | number
  | string
  | function
deriving DecidableEq, Repr

/-- Property keys. The decorator only ever names the get property; the
remaining descriptor fields and arbitrary other properties are covered by
the other constructors. -/
inductive PropKey where
  | get
  | set
  | enumerable
  | configurable
  | value
  | writable
  | other (n : Nat)
deriving DecidableEq, Repr

/-- JavaScript values: plain objects are given by their property lists,
and the closure that the decorator installs has a dedicated constructor
carrying the captured value of descriptor.get. -/
inductive JSVal where
  | undefined : JSVal
  | nul : JSVal
  | boolean : Bool → JSVal
  | number : Int → JSVal
  | string : Nat → JSVal
  | func : Nat → JSVal
  | replacementGetter : JSVal → JSVal
  | obj : List (PropKey × JSVal) → JSVal

/-- The typeof operator. -/
def typeof : JSVal → JSType
  | .undefined => .undefined
  | .nul => .object
  | .boolean _ => .boolean
  | .number _ => .number
  | .string _ => .string
  | .func _ => .function
  | .replacementGetter _ => .function
  | .obj _ => .object

/-- Lookup of a property in a property list. -/
def lookupProp : List (PropKey × JSVal) → PropKey → Option JSVal
  | [], _ => none
  | (k, v) :: rest, q => if k = q then some v else lookupProp rest q

/-- Update or insertion of a property in a property list. -/
def setProp : List (PropKey × JSVal) → PropKey → JSVal → List (PropKey × JSVal)
  | [], k, v => [(k, v)]
  | (k0, v0) :: rest, k, v =>
      if k0 = k then (k, v) :: rest else (k0, v0) :: setProp rest k v

/-- Exceptions of the declaration-time model: the three errors thrown by
the decorator, carrying the same data the source interpolates into the
message, and the TypeError of the JavaScript runtime. -/
inductive JSErr where
  | typeError : JSErr
  | extraneousParens : JSErr
  | invalidArgs : List JSVal → JSErr
  | getterOnly : JSVal → JSErr

/-- Member read in a strict-mode module: reading a property of undefined
or null throws a TypeError; an absent property reads as undefined; the
unit never stores properties on function values or primitives, so a member
read on them yields undefined. -/
def getMember (v : JSVal) (k : PropKey) : Except JSErr JSVal :=
  match v with
  | .obj props => .ok ((lookupProp props k).getD .undefined)
  | .undefined => .error .typeError
  | .nul => .error .typeError
  | _ => .ok .undefined

/-- Member write in a strict-mode module: on a plain object the property
is updated or added; on undefined, null or a primitive the assignment
throws a TypeError; on a function value the assignment succeeds, and since
the unit never reads such a property back the value is kept unchanged. -/
def setMember (v : JSVal) (k : PropKey) (w : JSVal) : Except JSErr JSVal :=
  match v with
  | .obj props => .ok (.obj (setProp props k w))
  | .func n => .ok (.func n)
  | .replacementGetter g => .ok (.replacementGetter g)
  | _ => .error .typeError

/-- The in operator: legal on objects, including function objects, and a
TypeError on anything else. -/
def jsIn (k : PropKey) (v : JSVal) : Except JSErr Bool :=
  match v with
  | .obj props => .ok (lookupProp props k).isSome
  | .func _ => .ok false
  | .replacementGetter _ => .ok false
  | _ => .error .typeError

/-- Destructuring of the rest-argument list: missing positions read as
undefined. -/
def nthArg (args : List JSVal) (n : Nat) : JSVal := args.getD n .undefined

/-- Test against undefined, for the first check of the decorator. -/
def isUndef : JSVal → Bool
  | .undefined => true
  | _ => false

/-- Lines 58 to 67 of the source: capture the original getter from the
descriptor into a local binding, then reassign descriptor.get to the
replacement closure, which closes over the captured getter and a fresh
WeakMap. The decorator body has no return statement, so the call returns
undefined; the in-place mutation of the descriptor is represented by
returning the argument list with the mutated descriptor at position 2. -/
def installWrapper (args : List JSVal) (descriptor : JSVal) :
    Except JSErr (JSVal × List JSVal) :=
  match getMember descriptor PropKey.get with
  | .error e => .error e
  | .ok getter =>
      match setMember descriptor PropKey.get (.replacementGetter getter) with
      | .error e => .error e
      | .ok descriptor2 => .ok (.undefined, args.set 2 descriptor2)

/-- Model of the decorator function cached (source lines 40 to 68), with
the DEBUG build flag as a parameter. The three throw helpers of the source
are represented by the corresponding error constructors, and the
short-circuit evaluation of the getter check is kept: the in test runs
first and descriptor.get is only read when the property is present. -/
def cached (debug : Bool) (args : List JSVal) :
    Except JSErr (JSVal × List JSVal) :=
  let target := nthArg args 0
  let key := nthArg args 1
  let descriptor := nthArg args 2
  if debug && isUndef target then
    .error .extraneousParens
  else if debug &&
      (!(typeof target == JSType.object) || !(typeof key == JSType.string) ||
        !(typeof descriptor == JSType.object) || !(args.length == 3)) then
    .error (.invalidArgs args)
  else if debug then
    match jsIn PropKey.get descriptor with
    | .error e => .error e
    | .ok has =>
        if !has then .error (.getterOnly key)
        else
          match getMember descriptor PropKey.get with
          | .error e => .error e
          | .ok g =>
              if typeof g == JSType.function then installWrapper args descriptor
              else .error (.getterOnly key)
  else installWrapper args descriptor

/-- First read through the installed replacement getter when the captured
descriptor.get value may not be callable. When it is not a function, the
expression getter.bind(this) in the replacement getter throws a TypeError
before createCache and the map registration can run, so no handle is ever
created and the map is unchanged; a handle can therefore only exist after
a successful bind, which is why the callable case is exactly `read`. -/
def readCaptured (g : Option Comp) (s : Store) (σ : Caches) (i : Inst) :
    Except JSErr Value × Caches × Nat × Nat :=
  match g with
  | some f =>
      let r := read f s σ i
      (.ok r.1, r.2.1, r.2.2.1, r.2.2.2)
  | none => (.error .typeError, σ, 0, 0)

/- Concrete fixtures for the closed instantiations. -/

/-- Concrete computation: it reads cell 0 and adds the receiver. -/
def fW : Comp := fun s i => (s.val 0 + i, [0])

/-- Concrete failing computation. -/
def fE : CompE Nat := fun _ _ => .error 7

/-- Concrete store at revision 0. -/
def storeW : Store := ⟨fun _ => 5, fun _ => 0, 0⟩

/-- Concrete store at revision 1 whose cells were last written at
revision 1. -/
def storeW2 : Store := ⟨fun _ => 6, fun _ => 1, 1⟩

/-- Map holding one handle for instance 0, resolved at revision 0 with
dependency on cell 0. -/
def cachesW : Caches := updateCaches emptyCaches 0 ⟨0, some (5, 0, [0])⟩

/-- Map holding handles for instances 0 and 1 with disjoint recorded
dependencies. -/
def cachesW5 : Caches :=
  updateCaches (updateCaches emptyCaches 0 ⟨0, some (5, 0, [0])⟩) 1
    ⟨1, some (7, 0, [1])⟩

/-- Concrete joint state with the empty map. -/
def sysW : Sys := ⟨storeW, emptyCaches⟩

/-- Concrete descriptor property list holding a getter function. -/
def propsW : List (PropKey × JSVal) := [(PropKey.get, JSVal.func 7)]

/-- Expected result of installing the wrapper over propsW. -/
def rW : JSVal × List JSVal :=
  (JSVal.undefined, [JSVal.obj [], JSVal.string 0,
    JSVal.obj [(PropKey.get, JSVal.replacementGetter (JSVal.func 7))]])

/- Basic lemmas about the map and the revision bound. -/

theorem updateCaches_self (σ : Caches) (i : Inst) (c : Cache) :
    updateCaches σ i c i = some c := by
  simp [updateCaches]

theorem updateCaches_other (σ : Caches) (i j : Inst) (c : Cache)
    (h : j ≠ i) : updateCaches σ i c j = σ j := by
  simp [updateCaches, h]

theorem maxRev_le_iff (s : Store) (deps : List CellId) (n : Nat) :
    maxRev s deps ≤ n ↔ ∀ c ∈ deps, s.rev c ≤ n := by
  induction deps with
  | nil => simp [maxRev]
  | cons d rest ih =>
      simp only [maxRev, List.foldr, List.mem_cons] at ih ⊢
      constructor
      · intro h c hc
        rcases Nat.max_le.mp h with ⟨h1, h2⟩
        rcases hc with rfl | hc
        · exact h1
        · exact ih.mp h2 c hc
      · intro h
        exact Nat.max_le.mpr ⟨h d (Or.inl rfl), ih.mpr (fun c hc => h c (Or.inr hc))⟩

theorem rev_le_maxRev (s : Store) (deps : List CellId) (d : CellId)
    (h : d ∈ deps) : s.rev d ≤ maxRev s deps :=
  (maxRev_le_iff s deps (maxRev s deps)).mp le_rfl d h

theorem maxRev_le_current (s : Store) (hwf : s.wf) (deps : List CellId) :
    maxRev s deps ≤ s.current :=
  (maxRev_le_iff s deps s.current).mpr (fun c _ => hwf c)

theorem maxRev_congr (s s' : Store) (deps : List CellId)
    (h : ∀ c ∈ deps, s'.rev c = s.rev c) : maxRev s' deps = maxRev s deps := by
  induction deps with
  | nil => rfl
  | cons d rest ih =>
      simp only [maxRev, List.foldr] at ih ⊢
      rw [h d (by simp), ih (fun c hc => h c (by simp [hc]))]

/- Evaluation lemmas for getValue and read. -/

theorem getValue_none (f : Comp) (s : Store) (i : Inst) :
    getValue f s ⟨i, none⟩ =
      ((f s i).1, ⟨i, some ((f s i).1, s.current, (f s i).2)⟩, 1) := by
  simp [getValue]

theorem getValue_hit (f : Comp) (s : Store) (c : Cache)
    (v : Value) (snap : Nat) (deps : List CellId)
    (hc : c.last = some (v, snap, deps)) (h : maxRev s deps ≤ snap) :
    getValue f s c = (v, c, 0) := by
  simp [getValue, hc, h]

theorem getValue_miss (f : Comp) (s : Store) (c : Cache)
    (v : Value) (snap : Nat) (deps : List CellId)
    (hc : c.last = some (v, snap, deps)) (h : ¬ maxRev s deps ≤ snap) :
    getValue f s c =
      ((f s c.inst).1, ⟨c.inst, some ((f s c.inst).1, s.current, (f s c.inst).2)⟩, 1) := by
  simp [getValue, hc, h]

theorem read_fresh (f : Comp) (s : Store) (σ : Caches) (i : Inst)
    (h : σ i = none) :
    read f s σ i =
      ((f s i).1,
        updateCaches σ i ⟨i, some ((f s i).1, s.current, (f s i).2)⟩, 1, 1) := by
  simp [read, h, createCache, getValue_none]

theorem read_hit (f : Comp) (s : Store) (σ : Caches) (i : Inst)
    (c : Cache) (v : Value) (snap : Nat) (deps : List CellId)
    (hσ : σ i = some c) (hc : c.last = some (v, snap, deps))
    (h : maxRev s deps ≤ snap) :
    read f s σ i = (v, updateCaches σ i c, 0, 0) := by
  simp [read, hσ, getValue_hit f s c v snap deps hc h]

theorem read_miss (f : Comp) (s : Store) (σ : Caches) (i : Inst)
    (c : Cache) (v : Value) (snap : Nat) (deps : List CellId)
    (hσ : σ i = some c) (hc : c.last = some (v, snap, deps))
    (h : ¬ maxRev s deps ≤ snap) :
    read f s σ i =
      ((f s c.inst).1,
        updateCaches σ i ⟨c.inst, some ((f s c.inst).1, s.current, (f s c.inst).2)⟩, 1, 0) := by
  simp [read, hσ, getValue_miss f s c v snap deps hc h]

theorem readN_hit (f : Comp) (s : Store) (σ : Caches) (i : Inst)
    (c : Cache) (v : Value) (snap : Nat) (deps : List CellId)
    (hσ : σ i = some c) (hc : c.last = some (v, snap, deps))
    (h : maxRev s deps ≤ snap) :
    ∀ n, (readN f s σ i n).1 = List.replicate n v ∧
      (readN f s σ i n).2.2 = 0 ∧ (readN f s σ i n).2.1 i = some c := by
  intro n
  induction n generalizing σ with
  | zero => exact ⟨rfl, rfl, hσ⟩
  | succ m ih =>
      have hr := read_hit f s σ i c v snap deps hσ hc h
      have := ih (updateCaches σ i c) (updateCaches_self σ i c)
      simp only [readN, hr]
      exact ⟨by rw [this.1, List.replicate], by rw [this.2.1], this.2.2⟩

/-- C2: reading the memoized property N times (N at least 1), starting from
an instance with no handle and with no intervening change to any tracked
cell, invokes the original computation exactly once, and every one of the N
reads returns the identical value, namely the value of the original
computation at the receiver. -/
theorem cached_read_memoizes (f : Comp) (s : Store) (σ : Caches) (i : Inst)
    (n : Nat) (hwf : s.wf) (h0 : σ i = none) (hn : 1 ≤ n) :
    (readN f s σ i n).2.2 = 1 ∧
      ∀ v ∈ (readN f s σ i n).1, v = (f s i).1 := by
  obtain ⟨m, rfl⟩ : ∃ m, n = m + 1 := ⟨n - 1, by omega⟩
  have hfresh := read_fresh f s σ i h0
  have hσ1 : (updateCaches σ i ⟨i, some ((f s i).1, s.current, (f s i).2)⟩) i
      = some ⟨i, some ((f s i).1, s.current, (f s i).2)⟩ :=
    updateCaches_self σ i _
  have hmax : maxRev s (f s i).2 ≤ s.current := maxRev_le_current s hwf _
  have hrest := readN_hit f s
    (updateCaches σ i ⟨i, some ((f s i).1, s.current, (f s i).2)⟩) i
    ⟨i, some ((f s i).1, s.current, (f s i).2)⟩
    (f s i).1 s.current (f s i).2 hσ1 rfl hmax m
  simp only [readN, hfresh]
  refine ⟨by rw [hrest.2.1], ?_⟩
  intro v hv
  rw [List.mem_cons] at hv
  rcases hv with rfl | hv
  · rfl
  · rw [hrest.1] at hv
    exact List.eq_of_mem_replicate hv

/-- C3: if some dependency recorded at the last invocation changed since
that invocation (its revision exceeds the stored snapshot), the next read
re-invokes the computation exactly once, returns the freshly computed
value, stores it in the handle, and a further read with no intervening
change returns that same value without re-invoking. -/
theorem cached_read_recomputes (f : Comp) (s : Store) (σ : Caches) (i : Inst)
    (v : Value) (snap : Nat) (deps : List CellId)
    (hwf : s.wf) (hσ : σ i = some ⟨i, some (v, snap, deps)⟩)
    (hch : snap < maxRev s deps) :
    (read f s σ i).1 = (f s i).1 ∧
    (read f s σ i).2.2.1 = 1 ∧
    (read f s σ i).2.1 i = some ⟨i, some ((f s i).1, s.current, (f s i).2)⟩ ∧
    (read f s (read f s σ i).2.1 i).1 = (f s i).1 ∧
    (read f s (read f s σ i).2.1 i).2.2.1 = 0 := by
  have hmiss := read_miss f s σ i ⟨i, some (v, snap, deps)⟩ v snap deps hσ rfl
    (not_le.mpr hch)
  have hσ1 : (read f s σ i).2.1 i
      = some ⟨i, some ((f s i).1, s.current, (f s i).2)⟩ := by
    rw [hmiss]; exact updateCaches_self σ i _
  have hmax : maxRev s (f s i).2 ≤ s.current := maxRev_le_current s hwf _
  have hhit := read_hit f s (read f s σ i).2.1 i
    ⟨i, some ((f s i).1, s.current, (f s i).2)⟩
    (f s i).1 s.current (f s i).2 hσ1 rfl hmax
  exact ⟨by rw [hmiss], by rw [hmiss], hσ1, by rw [hhit], by rw [hhit]⟩

/-- C5: two distinct instances sharing the declaration have independent
cache entries. After a write to a cell that is a recorded dependency of
instance i but not of instance j, the next read by j is served from the
cache with no re-invocation and the prior value, the next read by i
re-invokes the computation exactly once, and a read by either instance
leaves the map entry of the other instance untouched. -/
theorem cached_per_instance_isolation (f : Comp) (s : Store) (σ : Caches)
    (i j : Inst) (d : CellId) (w : Value)
    (vi vj : Value) (snapi snapj : Nat) (depsi depsj : List CellId)
    (hij : i ≠ j)
    (hσi : σ i = some ⟨i, some (vi, snapi, depsi)⟩)
    (hσj : σ j = some ⟨j, some (vj, snapj, depsj)⟩)
    (hdi : d ∈ depsi) (hdj : d ∉ depsj)
    (hsnapi : snapi ≤ s.current)
    (hfreshj : maxRev s depsj ≤ snapj) :
    (read f (writeCell s d w) σ j).1 = vj ∧
    (read f (writeCell s d w) σ j).2.2.1 = 0 ∧
    (read f (writeCell s d w) σ i).2.2.1 = 1 ∧
    (read f (writeCell s d w) σ i).2.1 j = σ j ∧
    (read f (writeCell s d w) σ j).2.1 i = σ i := by
  have hrevj : maxRev (writeCell s d w) depsj = maxRev s depsj := by
    refine maxRev_congr s (writeCell s d w) depsj (fun c hc => ?_)
    have hcd : c ≠ d := fun hcontra => hdj (hcontra ▸ hc)
    simp [writeCell, hcd]
  have hhitj := read_hit f (writeCell s d w) σ j ⟨j, some (vj, snapj, depsj)⟩
    vj snapj depsj hσj rfl (by rw [hrevj]; exact hfreshj)
  have hrevd : (writeCell s d w).rev d = s.current + 1 := by simp [writeCell]
  have hstale : ¬ maxRev (writeCell s d w) depsi ≤ snapi := by
    have := rev_le_maxRev (writeCell s d w) depsi d hdi
    rw [hrevd] at this
    omega
  have hmissi := read_miss f (writeCell s d w) σ i ⟨i, some (vi, snapi, depsi)⟩
    vi snapi depsi hσi rfl hstale
  refine ⟨by rw [hhitj], by rw [hhitj], by rw [hmissi], ?_, ?_⟩
  · rw [hmissi]; exact updateCaches_other σ i j _ (Ne.symm hij)
  · rw [hhitj]; exact updateCaches_other σ j i _ hij

theorem read_createCalls (f : Comp) (s : Store) (σ : Caches) (i : Inst) :
    (read f s σ i).2.2.2 = if (σ i).isSome then 0 else 1 := by
  cases h : σ i <;> simp [read, h]

theorem read_caches_self_isSome (f : Comp) (s : Store) (σ : Caches)
    (i : Inst) : ((read f s σ i).2.1 i).isSome := by
  cases h : σ i <;> simp [read, h, updateCaches]

theorem read_caches_frame (f : Comp) (s : Store) (σ : Caches) (i j : Inst)
    (hij : j ≠ i) : (read f s σ i).2.1 j = σ j := by
  cases h : σ i <;> simp [read, h, updateCaches, hij]

theorem step_preserves_handle (f : Comp) (sys : Sys) (op : Op) (i : Inst)
    (h : (sys.caches i).isSome) : ((sys.step f op).caches i).isSome := by
  cases op with
  | readOp j =>
      by_cases hji : i = j
      · subst hji
        simpa [Sys.step] using read_caches_self_isSome f sys.store sys.caches i
      · simpa [Sys.step, read_caches_frame f sys.store sys.caches j i hji]
          using h
  | writeOp c v => simpa [Sys.step] using h

theorem run_preserves_handle (f : Comp) (sys : Sys) (ops : List Op)
    (i : Inst) (h : (sys.caches i).isSome) :
    ((sys.run f ops).caches i).isSome := by
  induction ops generalizing sys with
  | nil => exact h
  | cons op ops ih => exact ih _ (step_preserves_handle f sys op i h)

theorem createCallsFor_of_handle (f : Comp) (sys : Sys) (i : Inst)
    (ops : List Op) (h : (sys.caches i).isSome) :
    createCallsFor f sys i ops = 0 := by
  induction ops generalizing sys with
  | nil => rfl
  | cons op ops ih =>
      have hstep := step_preserves_handle f sys op i h
      cases op with
      | readOp j =>
          by_cases hji : j = i
          · subst hji
            simp [createCallsFor, read_createCalls, h, ih _ hstep]
          · simp [createCallsFor, hji, ih _ hstep]
      | writeOp c v => simp [createCallsFor, ih _ hstep]

theorem createCallsFor_le_one (f : Comp) (sys : Sys) (i : Inst)
    (ops : List Op) (h0 : sys.caches i = none) :
    createCallsFor f sys i ops ≤ 1 := by
  induction ops generalizing sys with
  | nil => simp [createCallsFor]
  | cons op ops ih =>
      cases op with
      | readOp j =>
          by_cases hji : j = i
          · subst hji
            have hsome : ((sys.step f (Op.readOp j)).caches j).isSome := by
              simpa [Sys.step]
                using read_caches_self_isSome f sys.store sys.caches j
            simp [createCallsFor, read_createCalls, h0,
              createCallsFor_of_handle f _ j ops hsome]
          · have h0' : (sys.step f (Op.readOp j)).caches i = none := by
              simpa [Sys.step,
                read_caches_frame f sys.store sys.caches j i
                  (fun hc => hji hc.symm)] using h0
            simpa [createCallsFor, hji] using ih _ h0'
      | writeOp c v =>
          have h0' : (sys.step f (Op.writeOp c v)).caches i = none := by
            simpa [Sys.step] using h0
          simpa [createCallsFor] using ih _ h0'

theorem run_handle_iff (f : Comp) (sys : Sys) (i : Inst) (ops : List Op)
    (h0 : sys.caches i = none) :
    ((sys.run f ops).caches i).isSome ↔ Op.readOp i ∈ ops := by
  induction ops generalizing sys with
  | nil => simp [Sys.run, h0]
  | cons op ops ih =>
      cases op with
      | readOp j =>
          by_cases hji : j = i
          · subst hji
            have hsome : ((sys.step f (Op.readOp j)).caches j).isSome := by
              simpa [Sys.step]
                using read_caches_self_isSome f sys.store sys.caches j
            simp [Sys.run, run_preserves_handle f _ ops j hsome]
          · have h0' : (sys.step f (Op.readOp j)).caches i = none := by
              simpa [Sys.step,
                read_caches_frame f sys.store sys.caches j i
                  (fun hc => hji hc.symm)] using h0
            rw [Sys.run, ih _ h0']
            have hij : i ≠ j := fun hc => hji hc.symm
            simp [hij]
      | writeOp c v =>
          have h0' : (sys.step f (Op.writeOp c v)).caches i = none := by
            simpa [Sys.step] using h0
          rw [Sys.run, ih _ h0']
          simp

/-- C1: per instance, the cache handle is created lazily on the first read
and only then. Along any trace of reads and writes starting from a state
where the instance has no handle, createCache runs at most once for that
instance; the instance ends up with a handle exactly when the trace
contains a read by it; and a handle, once present, is never removed by any
further trace of events. -/
theorem cached_handle_created_once (f : Comp) (sys : Sys) (i : Inst)
    (ops : List Op) (h0 : sys.caches i = none) :
    createCallsFor f sys i ops ≤ 1 ∧
    (((sys.run f ops).caches i).isSome ↔ Op.readOp i ∈ ops) ∧
    (∀ (sys' : Sys) (ops' : List Op), (sys'.caches i).isSome →
      ((sys'.run f ops').caches i).isSome) :=
  ⟨createCallsFor_le_one f sys i ops h0, run_handle_iff f sys i ops h0,
    fun sys' ops' h => run_preserves_handle f sys' ops' i h⟩

/-- C6: the replacement getter itself never raises. On any read the
original computation is invoked at most once; a read that does not invoke
it returns a cached value without error; a read that invokes it returns
exactly the outcome of the computation at the receiver, so a success is
returned as a value and a failure propagates to the reader unmodified; and
after a failing invocation the content of the handle is unchanged, so the
failure is not cached. -/
theorem cached_read_error_transparent {ε : Type} (f : CompE ε) (s : Store)
    (σ : Caches) (i : Inst)
    (hσ : σ i = none ∨ ∃ l, σ i = some ⟨i, l⟩) :
    (readE f s σ i).2.2.1 ≤ 1 ∧
    ((readE f s σ i).2.2.1 = 0 → ∃ v, (readE f s σ i).1 = Except.ok v) ∧
    ((readE f s σ i).2.2.1 = 1 →
      (readE f s σ i).1 = (f s i).map Prod.fst) ∧
    (∀ e, f s i = .error e → (readE f s σ i).2.2.1 = 1 →
      (readE f s σ i).2.1 i = some ⟨i, lastOf σ i⟩) := by
  rcases hσ with h | ⟨l, h⟩
  · cases hf : f s i with
    | ok r =>
        simp [readE, h, getValueE, createCache, hf, lastOf, updateCaches, Except.map]
    | error e =>
        simp [readE, h, getValueE, createCache, hf, lastOf, updateCaches, Except.map]
  · cases l with
    | none =>
        cases hf : f s i with
        | ok r =>
            simp [readE, h, getValueE, hf, lastOf, updateCaches, Except.map]
        | error e =>
            simp [readE, h, getValueE, hf, lastOf, updateCaches, Except.map]
    | some t =>
        obtain ⟨v, snap, deps⟩ := t
        by_cases hv : maxRev s deps ≤ snap
        · simp [readE, h, getValueE, hv]
        · cases hf : f s i with
          | ok r =>
              simp [readE, h, getValueE, hv, hf, lastOf, updateCaches, Except.map]
          | error e =>
              simp [readE, h, getValueE, hv, hf, lastOf, updateCaches, Except.map]

/- Lemmas about property lists and the decorator. -/

theorem lookupProp_setProp_self (props : List (PropKey × JSVal))
    (k : PropKey) (v : JSVal) :
    lookupProp (setProp props k v) k = some v := by
  induction props with
  | nil => simp [setProp, lookupProp]
  | cons p rest ih =>
      obtain ⟨k0, v0⟩ := p
      by_cases h : k0 = k
      · subst h; simp [setProp, lookupProp]
      · simp [setProp, lookupProp, h, ih]

theorem lookupProp_setProp_other (props : List (PropKey × JSVal))
    (k q : PropKey) (v : JSVal) (h : q ≠ k) :
    lookupProp (setProp props k v) q = lookupProp props q := by
  induction props with
  | nil => simp [setProp, lookupProp, Ne.symm h]
  | cons p rest ih =>
      obtain ⟨k0, v0⟩ := p
      by_cases hk : k0 = k
      · subst hk
        simp [setProp, lookupProp, Ne.symm h]
      · by_cases hq : k0 = q <;> simp [setProp, lookupProp, hk, hq, ih, h]

theorem replacementGetter_ne (g : JSVal) :
    JSVal.replacementGetter g ≠ g := by
  intro h
  have h2 := congrArg sizeOf h
  simp only [JSVal.replacementGetter.sizeOf_spec] at h2
  omega

theorem installWrapper_obj (args : List JSVal)
    (props : List (PropKey × JSVal)) :
    installWrapper args (.obj props) =
      .ok (.undefined, args.set 2 (.obj (setProp props PropKey.get
        (.replacementGetter ((lookupProp props PropKey.get).getD .undefined))))) := by
  simp [installWrapper, getMember, setMember]

theorem cached_ok_obj (debug : Bool) (t k : JSVal)
    (props : List (PropKey × JSVal)) (r : JSVal × List JSVal)
    (h : cached debug [t, k, .obj props] = .ok r) :
    r = (.undefined, [t, k, .obj (setProp props PropKey.get
      (.replacementGetter ((lookupProp props PropKey.get).getD .undefined)))]) := by
  obtain ⟨r1, r2⟩ := r
  cases debug with
  | false =>
      simp [cached, nthArg, installWrapper_obj, Prod.ext_iff] at h
      simp [Prod.ext_iff, h.1.symm, h.2.symm]
  | true =>
      simp only [cached, nthArg, List.getD_cons_zero, List.getD_cons_succ,
        Bool.true_and, jsIn] at h
      split at h
      · exact absurd h (by simp)
      · split at h
        · exact absurd h (by simp)
        · rw [if_true] at h
          split at h
          · exact absurd h (by simp)
          · simp only [getMember] at h
            split at h
            · simp only [installWrapper_obj] at h
              simp [Prod.ext_iff] at h
              simp [Prod.ext_iff, h.1.symm, h.2.symm]
            · exact absurd h (by simp)

/-- C10: whenever the decorator call on a well-shaped triple returns
successfully, it returns undefined and has mutated the supplied descriptor
in place, replacing exactly the get field by the replacement closure: the
target and the key are untouched, every descriptor property other than get
keeps its value, and the get property now holds the replacement. -/
theorem cached_mutates_only_get (debug : Bool) (t k : JSVal)
    (props : List (PropKey × JSVal)) (r : JSVal × List JSVal)
    (h : cached debug [t, k, .obj props] = .ok r) :
    r.1 = .undefined ∧
    r.2 = [t, k, .obj (setProp props PropKey.get
      (.replacementGetter ((lookupProp props PropKey.get).getD .undefined)))] ∧
    lookupProp (setProp props PropKey.get
        (.replacementGetter ((lookupProp props PropKey.get).getD .undefined)))
        PropKey.get
      = some (.replacementGetter ((lookupProp props PropKey.get).getD .undefined)) ∧
    ∀ q, q ≠ PropKey.get →
      lookupProp (setProp props PropKey.get
          (.replacementGetter ((lookupProp props PropKey.get).getD .undefined))) q
        = lookupProp props q := by
  have hr := cached_ok_obj debug t k props r h
  exact ⟨by rw [hr], by rw [hr], lookupProp_setProp_self _ _ _,
    fun q hq => lookupProp_setProp_other _ _ _ _ hq⟩

/-- C4: declaration-time rejection under DEBUG. A well-shaped triple whose
descriptor lacks a callable get is rejected with the getter-only error, the
NotAGetterError of the spec; a call with explicit arguments, that is, with
zero arguments for the parenthesized form or a single argument, is
rejected with the extraneous-parens or the invalid-args error, the
UnsupportedArgumentsError of the spec; a malformed triple is rejected with
the invalid-args error, the InvalidUsageError of the spec; and an
installation succeeds only for a well-shaped triple whose descriptor holds
a callable getter, so every rejection happens synchronously inside the
declaration-time call and the property is not installed. -/
theorem cached_declaration_time_rejection :
    (∀ t k props, typeof t = JSType.object → typeof k = JSType.string →
      (lookupProp props PropKey.get = none ∨
        ∃ g, lookupProp props PropKey.get = some g ∧
          typeof g ≠ JSType.function) →
      cached true [t, k, .obj props] = .error (.getterOnly k)) ∧
    (cached true [] = .error .extraneousParens ∧
      ∀ a, cached true [a] = .error .extraneousParens ∨
        cached true [a] = .error (.invalidArgs [a])) ∧
    (∀ t k d, ¬ isUndef t = true →
      (typeof t ≠ JSType.object ∨ typeof k ≠ JSType.string ∨
        typeof d ≠ JSType.object) →
      cached true [t, k, d] = .error (.invalidArgs [t, k, d])) ∧
    (∀ args r, cached true args = .ok r →
      ∃ t k props g, args = [t, k, JSVal.obj props] ∧
        lookupProp props PropKey.get = some g ∧
        typeof g = JSType.function) := by
  refine ⟨?_, ⟨rfl, ?_⟩, ?_, ?_⟩
  · intro t k props ht hk hbad
    have hut : isUndef t = false := by
      cases t <;> simp_all [typeof, isUndef]
    have hdb : typeof (JSVal.obj props) = JSType.object := by simp [typeof]
    rcases hbad with hnone | ⟨g, hg, hgf⟩
    · simp [cached, nthArg, hut, ht, hk, hdb, jsIn, hnone]
    · simp [cached, nthArg, hut, ht, hk, hdb, jsIn, getMember, hg, hgf]
  · intro a
    cases a <;> first | exact Or.inl rfl | exact Or.inr rfl
  · intro t k d hu hbad
    have hu' : isUndef t = false := by simpa using hu
    have hcond : (true && (!(typeof t == JSType.object) ||
        !(typeof k == JSType.string) || !(typeof d == JSType.object) ||
        !(List.length [t, k, d] == 3))) = true := by
      rcases hbad with h1 | h1 | h1 <;> simp [h1]
    have hneg : ¬ ((true && isUndef t) = true) := by simp [hu']
    unfold cached
    simp only [nthArg, List.getD_cons_zero, List.getD_cons_succ]
    rw [if_neg hneg, if_pos hcond]
  · intro args r h
    simp only [cached, Bool.true_and] at h
    split at h
    · exact absurd h (by simp)
    next h1 =>
      split at h
      · exact absurd h (by simp)
      next h2 =>
        by_cases hd : typeof (nthArg args 2) = JSType.object
        swap
        · exact absurd (by simp [hd]) h2
        by_cases hlen : args.length = 3
        swap
        · exact absurd (by simp [hlen]) h2
        obtain ⟨t, k, d, rfl⟩ := List.length_eq_three.mp hlen
        have hd2 : typeof d = JSType.object := by simpa [nthArg] using hd
        rw [if_true] at h
        cases d with
        | nul => exact absurd h (by simp [nthArg, jsIn])
        | obj props =>
            simp only [nthArg, List.getD_cons_zero, List.getD_cons_succ,
              jsIn, getMember] at h
            split at h
            · exact absurd h (by simp)
            next h3 =>
              have hsome : (lookupProp props PropKey.get).isSome = true :=
                Option.ne_none_iff_isSome.mp (by simpa using h3)
              obtain ⟨g, hg⟩ := Option.isSome_iff_exists.mp hsome
              rw [hg] at h
              split at h
              next h4 =>
                exact ⟨t, k, props, g, rfl, hg, by simpa using h4⟩
              · exact absurd h (by simp)
        | undefined => simp [typeof] at hd2
        | boolean b => simp [typeof] at hd2
        | number n => simp [typeof] at hd2
        | string s => simp [typeof] at hd2
        | func n => simp [typeof] at hd2
        | replacementGetter g => simp [typeof] at hd2

/-- C7 counterexample: with DEBUG false the decorator does not install the
wrapper unconditionally. Invoked with no arguments, the parenthesized
misuse form, the member read descriptor.get itself throws a TypeError
already at declaration time, so no result with an installed wrapper
exists. -/
theorem cached_debug_off_counterexample :
    cached false [] = .error .typeError ∧
    ∀ r, cached false [] ≠ .ok r :=
  ⟨rfl, fun _ h => Except.noConfusion h⟩

/-- C7 amended: the three validation checks run only when DEBUG is true.
With DEBUG false the decorator never signals any of the three validation
errors; whenever the descriptor argument position holds a plain object it
installs the wrapper unconditionally, even for an object with no getter,
and the misuse then surfaces only on the first read, as a TypeError thrown
when binding the non-callable captured getter; with no arguments, however,
the member access on the missing descriptor throws a TypeError already at
declaration time, while the same call under DEBUG is caught by the first
validation check. -/
theorem cached_debug_gates_validation :
    (∀ args, cached false args ≠ .error .extraneousParens ∧
      (∀ as, cached false args ≠ .error (.invalidArgs as)) ∧
      (∀ k, cached false args ≠ .error (.getterOnly k))) ∧
    (∀ args props, nthArg args 2 = .obj props →
      cached false args = .ok (.undefined, args.set 2 (.obj (setProp props
        PropKey.get (.replacementGetter
          ((lookupProp props PropKey.get).getD .undefined)))))) ∧
    (∀ s σ i, readCaptured none s σ i = (.error .typeError, σ, 0, 0)) ∧
    cached true [] = .error .extraneousParens := by
  have hshape : ∀ args, cached false args = .error .typeError ∨
      ∃ r, cached false args = .ok r := by
    intro args
    have hcachedf : cached false args = installWrapper args (nthArg args 2) := by
      simp [cached]
    rw [hcachedf]
    cases hd : nthArg args 2 <;>
      simp [installWrapper, getMember, setMember]
  refine ⟨?_, ?_, fun s σ i => rfl, rfl⟩
  · intro args
    rcases hshape args with h | ⟨r, h⟩ <;>
      exact ⟨by simp [h], fun as => by simp [h], fun k => by simp [h]⟩
  · intro args props hd
    have hcachedf : cached false args = installWrapper args (nthArg args 2) := by
      simp [cached]
    rw [hcachedf, hd, installWrapper_obj]

/-- C9: the original getter is captured into a local binding before the
descriptor field is reassigned, so the installed closure wraps the
original getter value and never itself; at read time the replacement
getter delegates to the original computation evaluated at the actual
receiver and registers the handle under that receiver; and reads of the
same declaration through two distinct receivers use two distinct handles
stored under distinct keys, neither read touching the entry of the other
receiver. -/
theorem cached_delegates_to_original (f : Comp) (s : Store) (σ : Caches)
    (i j : Inst) (t k g : JSVal) (props : List (PropKey × JSVal))
    (r : JSVal × List JSVal) :
    (cached true [t, k, .obj props] = .ok r →
      lookupProp props PropKey.get = some g →
      r.2 = [t, k, .obj (setProp props PropKey.get (.replacementGetter g))] ∧
      JSVal.replacementGetter g ≠ g) ∧
    (σ i = none → (read f s σ i).1 = (f s i).1 ∧
      (read f s σ i).2.1 i =
        some ⟨i, some ((f s i).1, s.current, (f s i).2)⟩) ∧
    (i ≠ j → (read f s σ i).2.1 j = σ j) ∧
    (i ≠ j → σ i = none → σ j = none →
      ∀ ci cj, (read f s (read f s σ i).2.1 j).2.1 i = some ci →
        (read f s (read f s σ i).2.1 j).2.1 j = some cj →
        ci.inst = i ∧ cj.inst = j ∧ ci ≠ cj) := by
  refine ⟨?_, ?_, ?_, ?_⟩
  · intro h hg
    have hr := cached_ok_obj true t k props r h
    refine ⟨by rw [hr]; simp [hg], replacementGetter_ne g⟩
  · intro h0
    rw [read_fresh f s σ i h0]
    exact ⟨rfl, updateCaches_self σ i _⟩
  · intro hij
    exact read_caches_frame f s σ i j (Ne.symm hij)
  · intro hij h0i h0j ci cj hci hcj
    have hσ1i : (read f s σ i).2.1 i =
        some ⟨i, some ((f s i).1, s.current, (f s i).2)⟩ := by
      rw [read_fresh f s σ i h0i]
      exact updateCaches_self σ i _
    have hσ1j : (read f s σ i).2.1 j = none := by
      rw [read_caches_frame f s σ i j (Ne.symm hij)]
      exact h0j
    have hσ2i : (read f s (read f s σ i).2.1 j).2.1 i = (read f s σ i).2.1 i :=
      read_caches_frame f s (read f s σ i).2.1 j i hij
    have hσ2j : (read f s (read f s σ i).2.1 j).2.1 j =
        some ⟨j, some ((f s j).1, s.current, (f s j).2)⟩ := by
      rw [read_fresh f s (read f s σ i).2.1 j hσ1j]
      exact updateCaches_self _ j _
    rw [hσ2i, hσ1i] at hci
    rw [hσ2j] at hcj
    have hci2 : ci = ⟨i, some ((f s i).1, s.current, (f s i).2)⟩ :=
      (Option.some.injEq _ _ ▸ hci).symm
    have hcj2 : cj = ⟨j, some ((f s j).1, s.current, (f s j).2)⟩ :=
      (Option.some.injEq _ _ ▸ hcj).symm
    subst hci2
    subst hcj2
    exact ⟨rfl, rfl, fun hc => hij (congrArg Cache.inst hc)⟩

/- Closed instantiations of the claim theorems. -/

/-- Closed instantiation of the handle-uniqueness theorem. -/
theorem cached_handle_created_once_witness :
    sysW.caches 0 = none ∧
    (createCallsFor fW sysW 0 [Op.readOp 0, Op.readOp 0] ≤ 1 ∧
      (((sysW.run fW [Op.readOp 0, Op.readOp 0]).caches 0).isSome ↔
        Op.readOp 0 ∈ [Op.readOp 0, Op.readOp 0]) ∧
      (∀ (sys' : Sys) (ops' : List Op), (sys'.caches 0).isSome →
        ((sys'.run fW ops').caches 0).isSome)) :=
  ⟨rfl, cached_handle_created_once fW sysW 0 [Op.readOp 0, Op.readOp 0] rfl⟩

/-- Closed instantiation of the memoization theorem. -/
theorem cached_read_memoizes_witness :
    storeW.wf ∧ emptyCaches 0 = none ∧ 1 ≤ 2 ∧
    ((readN fW storeW emptyCaches 0 2).2.2 = 1 ∧
      ∀ v ∈ (readN fW storeW emptyCaches 0 2).1, v = (fW storeW 0).1) :=
  ⟨fun _ => le_rfl, rfl, by omega,
    cached_read_memoizes fW storeW emptyCaches 0 2 (fun _ => le_rfl) rfl
      (by omega)⟩

/-- Closed instantiation of the recomputation theorem. -/
theorem cached_read_recomputes_witness :
    storeW2.wf ∧ cachesW 0 = some ⟨0, some (5, 0, [0])⟩ ∧
    0 < maxRev storeW2 [0] ∧
    ((read fW storeW2 cachesW 0).1 = (fW storeW2 0).1 ∧
      (read fW storeW2 cachesW 0).2.2.1 = 1 ∧
      (read fW storeW2 cachesW 0).2.1 0 =
        some ⟨0, some ((fW storeW2 0).1, storeW2.current, (fW storeW2 0).2)⟩ ∧
      (read fW storeW2 (read fW storeW2 cachesW 0).2.1 0).1 = (fW storeW2 0).1 ∧
      (read fW storeW2 (read fW storeW2 cachesW 0).2.1 0).2.2.1 = 0) :=
  ⟨fun _ => le_rfl, rfl, by decide,
    cached_read_recomputes fW storeW2 cachesW 0 5 0 [0] (fun _ => le_rfl) rfl
      (by decide)⟩

/-- Closed instantiation of the isolation theorem. -/
theorem cached_per_instance_isolation_witness :
    (0 : Inst) ≠ 1 ∧
    cachesW5 0 = some ⟨0, some (5, 0, [0])⟩ ∧
    cachesW5 1 = some ⟨1, some (7, 0, [1])⟩ ∧
    0 ∈ [(0 : CellId)] ∧ 0 ∉ [(1 : CellId)] ∧
    0 ≤ storeW.current ∧ maxRev storeW [1] ≤ 0 ∧
    ((read fW (writeCell storeW 0 9) cachesW5 1).1 = 7 ∧
      (read fW (writeCell storeW 0 9) cachesW5 1).2.2.1 = 0 ∧
      (read fW (writeCell storeW 0 9) cachesW5 0).2.2.1 = 1 ∧
      (read fW (writeCell storeW 0 9) cachesW5 0).2.1 1 = cachesW5 1 ∧
      (read fW (writeCell storeW 0 9) cachesW5 1).2.1 0 = cachesW5 0) :=
  ⟨by decide, rfl, rfl, by decide, by decide, le_rfl, by decide,
    cached_per_instance_isolation fW storeW cachesW5 0 1 0 9 5 7 0 0 [0] [1]
      (by decide) rfl rfl (by decide) (by decide) le_rfl (by decide)⟩

/-- Closed instantiation of the error-transparency theorem. -/
theorem cached_read_error_transparent_witness :
    (emptyCaches 0 = none ∨ ∃ l, emptyCaches 0 = some ⟨0, l⟩) ∧
    ((readE fE storeW emptyCaches 0).2.2.1 ≤ 1 ∧
      ((readE fE storeW emptyCaches 0).2.2.1 = 0 →
        ∃ v, (readE fE storeW emptyCaches 0).1 = Except.ok v) ∧
      ((readE fE storeW emptyCaches 0).2.2.1 = 1 →
        (readE fE storeW emptyCaches 0).1 = (fE storeW 0).map Prod.fst) ∧
      (∀ e, fE storeW 0 = .error e →
        (readE fE storeW emptyCaches 0).2.2.1 = 1 →
        (readE fE storeW emptyCaches 0).2.1 0 = some ⟨0, lastOf emptyCaches 0⟩)) :=
  ⟨Or.inl rfl,
    cached_read_error_transparent fE storeW emptyCaches 0 (Or.inl rfl)⟩

/-- Closed instantiation of the declaration-time rejection theorem. -/
theorem cached_declaration_time_rejection_witness :
    typeof (JSVal.obj []) = JSType.object ∧
    typeof (JSVal.string 0) = JSType.string ∧
    (lookupProp [] PropKey.get = none ∨
      ∃ g, lookupProp [] PropKey.get = some g ∧ typeof g ≠ JSType.function) ∧
    cached true [JSVal.obj [], JSVal.string 0, JSVal.obj []] =
      .error (.getterOnly (JSVal.string 0)) :=
  ⟨rfl, rfl, Or.inl rfl,
    cached_declaration_time_rejection.1 (JSVal.obj []) (JSVal.string 0) []
      rfl rfl (Or.inl rfl)⟩

/-- Closed instantiation of the debug-gating theorem. -/
theorem cached_debug_gates_validation_witness :
    nthArg [JSVal.obj [], JSVal.string 0, JSVal.obj []] 2 = JSVal.obj [] ∧
    cached false [JSVal.obj [], JSVal.string 0, JSVal.obj []] =
      .ok (.undefined, [JSVal.obj [], JSVal.string 0, JSVal.obj []].set 2
        (.obj (setProp [] PropKey.get (.replacementGetter
          ((lookupProp [] PropKey.get).getD .undefined))))) :=
  ⟨rfl, cached_debug_gates_validation.2.1 _ [] rfl⟩

/-- Closed instantiation of the delegation theorem. -/
theorem cached_delegates_to_original_witness :
    emptyCaches 0 = none ∧
    ((read fW storeW emptyCaches 0).1 = (fW storeW 0).1 ∧
      (read fW storeW emptyCaches 0).2.1 0 =
        some ⟨0, some ((fW storeW 0).1, storeW.current, (fW storeW 0).2)⟩) :=
  ⟨rfl,
    (cached_delegates_to_original fW storeW emptyCaches 0 1 JSVal.undefined
      JSVal.undefined JSVal.undefined [] (JSVal.undefined, [])).2.1 rfl⟩

/-- Closed instantiation of the descriptor-mutation theorem. -/
theorem cached_mutates_only_get_witness :
    cached true [JSVal.obj [], JSVal.string 0, JSVal.obj propsW] = .ok rW ∧
    (rW.1 = JSVal.undefined ∧
      rW.2 = [JSVal.obj [], JSVal.string 0,
        JSVal.obj (setProp propsW PropKey.get (JSVal.replacementGetter
          ((lookupProp propsW PropKey.get).getD JSVal.undefined)))]) :=
  ⟨rfl,
    (cached_mutates_only_get true (JSVal.obj []) (JSVal.string 0) propsW rW
      rfl).1,
    (cached_mutates_only_get true (JSVal.obj []) (JSVal.string 0) propsW rW
      rfl).2.1⟩

end Cached
